import Mathlib

/-!
Verification development for the matilda tile scraper.

The repository has three variants of the same program:
  * `src/unnamed/part_001` — the cluster (master/worker) version: `getNextJob`
    is the range iterator, the master broadcasts an initial job to every
    worker and advances the iterator once per completion message;
  * `src/unnamed/part_000` — the sequential callback-chained version
    (`getTiles` / `tileGetCallback`);
  * `src/index.js` — a truncated variant whose `bboxToBounds` labels the
    latitude rows differently and whose seed uses `east`/`south`.

Numbers: tile indices are `ℤ`, zoom levels are `ℕ`.  Longitude/latitude
inputs are `ℚ` (the concrete inputs in the repository are decimal
literals); `latToTile` goes through `ℝ` because the source formula uses
`Math.log`/`Math.tan`/`Math.cos`.  The filesystem is a predicate
`String → Bool` on paths, `mkdirSync` success and fetch success are
oracle predicates on paths/URLs.  The per-zoom tile bounds used by the
iterator are abstracted as a function `bounds : ℕ → Bounds`, standing for
`fun z => bboxToBounds bbox z` as in the source, so that the enumeration
theorems are proved for every bounding box at once.
-/

namespace Matilda

/-- A tile address, source `Coords` typedef: zoom `z` and tile indices `x`, `y`. -/
structure Coords where
  z : ℕ
  x : ℤ
  y : ℤ
deriving DecidableEq

/-- Tile-index bounds at one zoom level, source `Bounds` typedef. -/
structure Bounds where
  north : ℤ
  south : ℤ
  east : ℤ
  west : ℤ
deriving DecidableEq

/-- A zoom range `{min, max}` as in the options object. -/
structure ZoomRange where
  min : ℕ
  max : ℕ
deriving DecidableEq

/-- The four entries of the bounding-box array `bbox[0..3]`
(`[south, west, north, east]` in degrees in the example options). -/
structure BBoxArr where
  a0 : ℚ
  a1 : ℚ
  a2 : ℚ
  a3 : ℚ

/-- Source `lngToTile` (identical in all three files):
`Math.floor((lng + 180) / 360 * Math.pow(2, zoom))`. -/
def lngToTile (lng : ℚ) (zoom : ℕ) : ℤ :=
  ⌊(lng + 180) / 360 * 2 ^ zoom⌋

/-- Source `latToTile` (identical in all three files):
`Math.floor((1 - Math.log(Math.tan(lat*π/180) + 1/Math.cos(lat*π/180)) / π) / 2 * 2^zoom)`. -/
noncomputable def latToTile (lat : ℚ) (zoom : ℕ) : ℤ :=
  ⌊(1 - Real.log (Real.tan ((lat : ℝ) * Real.pi / 180)
      + 1 / Real.cos ((lat : ℝ) * Real.pi / 180)) / Real.pi) / 2 * 2 ^ zoom⌋

/-- Source `bboxToBounds` of `part_000`/`part_001`:
`south := latToTile(bbox[0])`, `west := lngToTile(bbox[1])`,
`north := latToTile(bbox[2])`, `east := lngToTile(bbox[3])`. -/
noncomputable def bboxToBounds (bbox : BBoxArr) (zoom : ℕ) : Bounds :=
  { south := latToTile bbox.a0 zoom
    west := lngToTile bbox.a1 zoom
    north := latToTile bbox.a2 zoom
    east := lngToTile bbox.a3 zoom }

/-- Source `bboxToBounds` of `src/index.js`:
`north := latToTile(bbox[0])`, `west := lngToTile(bbox[1])`,
`south := latToTile(bbox[2])`, `east := lngToTile(bbox[3])`. -/
noncomputable def bboxToBoundsIndex (bbox : BBoxArr) (zoom : ℕ) : Bounds :=
  { north := latToTile bbox.a0 zoom
    west := lngToTile bbox.a1 zoom
    south := latToTile bbox.a2 zoom
    east := lngToTile bbox.a3 zoom }

/-- Replace the first occurrence of `pat` in a character list by `rep`
(the semantics of JavaScript `String.prototype.replace` with a non-global
regexp made of literal characters, as used by `templateToUrl`). -/
def replaceFirstAux (pat rep : List Char) : List Char → List Char
  | [] => []
  | c :: rest =>
    if pat.isPrefixOf (c :: rest) then rep ++ (c :: rest).drop pat.length
    else c :: replaceFirstAux pat rep rest

/-- String wrapper around `replaceFirstAux`. -/
def replaceFirst (s pat rep : String) : String :=
  ⟨replaceFirstAux pat.data rep.data s.data⟩

/-- Source `templateToUrl` (`part_001` lines 74-82, same code in `part_000`
and `index.js`): three successive first-occurrence replacements of the
`{x}`, `{y}`, `{z}` placeholders. -/
def templateToUrl (url : String) (coords : Coords) : String :=
  replaceFirst (replaceFirst (replaceFirst url "{x}" (toString coords.x))
    "{y}" (toString coords.y)) "{z}" (toString coords.z)

/-- Add a path to the filesystem predicate (effect of `mkdirSync` or of a
completed `createWriteStream`). -/
def addPath (fs : String → Bool) (p : String) : String → Bool :=
  fun q => q == p || fs q

/-- Source `createDir`: if the path does not exist, try `mkdirSync`
(`mkdirOk p = true` means the call succeeded or failed with `EEXIST`);
returns whether the directory is now usable, plus the updated filesystem. -/
def createDir (mkdirOk : String → Bool) (fs : String → Bool) (path : String) :
    Bool × (String → Bool) :=
  if fs path then (true, fs)
  else if mkdirOk path then (true, addPath fs path)
  else (false, fs)

/-- Source `pathError`: the message of the error object
`new Error('Failed to create "path"')`. -/
def pathError (path : String) : String :=
  "Failed to create \"" ++ path ++ "\""

/-- Result of one `getTile` call: the argument the callback was invoked with
(`some` = path error, `none` = the `callback(null)` / `callback()` paths),
the number of network fetches performed, whether the tile image was written,
and the filesystem after the call. -/
structure TileOut where
  report : Option String
  fetches : ℕ
  wrote : Bool
  fs : String → Bool

/-- Source `getTile` (`part_001` lines 163-223; `part_000`'s `getTile` is the
same code with `format` fixed to `"png"` and no referrer header): build the
URL, create the `{z}` and `{z}/{x}` directories, report a path error if one
fails; if the image exists report success with no fetch; otherwise fetch once
and write on success — the callback is invoked with no argument either way
(`.finally`). -/
def getTile (templateUrl output : String) (coords : Coords) (fmt : String)
    (mkdirOk fetchOk : String → Bool) (fs0 : String → Bool) : TileOut :=
  let url := templateToUrl templateUrl coords
  let path := output ++ "/" ++ toString coords.z
  let d1 := createDir mkdirOk fs0 path
  if !d1.1 then ⟨some (pathError path), 0, false, d1.2⟩
  else
    let path2 := path ++ "/" ++ toString coords.x
    let d2 := createDir mkdirOk d1.2 path2
    if !d2.1 then ⟨some (pathError path2), 0, false, d2.2⟩
    else
      let image := path2 ++ "/" ++ toString coords.y ++ "." ++ fmt
      if d2.2 image then ⟨none, 0, false, d2.2⟩
      else if fetchOk url then ⟨none, 1, true, addPath d2.2 image⟩
      else ⟨none, 1, false, d2.2⟩

/-- The mutable cursor of the iterator: the `coords` object of `getTiles`
plus the `count` variable. -/
structure IterState where
  z : ℕ
  x : ℤ
  y : ℤ
  count : ℕ
deriving DecidableEq

/-- Source `getNextJob` (`part_001` lines 257-319).  The `bounds` variable of
`getTiles` always equals `bboxToBounds(options.bbox, coords.z)` (it is
recomputed exactly when `z` changes), so it is modelled as `bounds s.z`.
Returns the address put into the job sent to the worker (if any) and the
updated cursor. -/
def getNextJob (zmax : ℕ) (bounds : ℕ → Bounds) (s : IterState) :
    Option Coords × IterState :=
  if zmax < s.z then (none, s)
  else
    let count := s.count + 1
    let y := s.y + 1
    if y ≤ (bounds s.z).south then
      (some ⟨s.z, s.x, y⟩, ⟨s.z, s.x, y, count⟩)
    else
      let x := s.x + 1
      let y2 := (bounds s.z).north
      if x ≤ (bounds s.z).east then
        (some ⟨s.z, x, y2⟩, ⟨s.z, x, y2, count⟩)
      else
        let z := s.z + 1
        let x2 := (bounds z).west
        let y3 := (bounds z).north
        if z ≤ zmax then (some ⟨z, x2, y3⟩, ⟨z, x2, y3, count⟩)
        else (none, ⟨z, x2, y3, count⟩)

/-- The master's message loop, `n` completion messages deep: every incoming
worker message triggers one `getNextJob` call (`part_001` lines 362-377 —
note the handler never branches on the message's success flag); the emitted
addresses are collected in arrival order. -/
def run (zmax : ℕ) (bounds : ℕ → Bounds) : ℕ → IterState → List Coords × IterState
  | 0, s => ([], s)
  | n + 1, s =>
    let p := getNextJob zmax bounds s
    let r := run zmax bounds n p.2
    (p.1.toList ++ r.1, r.2)

/-- The initial coordinates of `getTiles` (`part_000` lines 200-209 and
`part_001` lines 238-247): `z = zoom.min`, `x = bounds.west`, `y = bounds.north`. -/
def seedCoords (zmin : ℕ) (bounds : ℕ → Bounds) : Coords :=
  ⟨zmin, (bounds zmin).west, (bounds zmin).north⟩

/-- The iterator state at the start of the run (count starts at 0). -/
def seedState (zmin : ℕ) (bounds : ℕ → Bounds) : IterState :=
  ⟨zmin, (bounds zmin).west, (bounds zmin).north, 0⟩

/-- The seed of `src/index.js` `getTiles` (lines 103-112):
`coords.x = bounds.east`, `coords.y = bounds.south` with its own `bboxToBounds`. -/
noncomputable def seedCoordsIndex (bbox : BBoxArr) (zr : ZoomRange) : Coords :=
  ⟨zr.min, (bboxToBoundsIndex bbox zr.min).east, (bboxToBoundsIndex bbox zr.min).south⟩

/-- The whole sequence of addresses put into jobs over a run of the cluster
version with `workerCount` workers and `n` completion messages processed:
`part_001` lines 380-389 send the current `coords` — the seed, not an
advanced iterator value — to every worker, then each completion message
yields at most one more job. -/
def issuedJobs (zmin zmax : ℕ) (bounds : ℕ → Bounds) (workerCount n : ℕ) :
    List Coords :=
  List.replicate workerCount (seedCoords zmin bounds)
    ++ (run zmax bounds n (seedState zmin bounds)).1

/-- Observable outcome of `part_001`'s `getTiles`: the error handed to the
caller's callback, the issued job addresses, and the final `count`. -/
structure GetTilesOut where
  err : Option String
  jobs : List Coords
  count : ℕ

/-- Source `getTiles` of `part_001` (lines 321-324 and the master branch):
create the output root (abort with `pathError` and zero jobs on failure),
otherwise fork the workers and run the message loop. -/
def getTiles001 (zmin zmax : ℕ) (bounds : ℕ → Bounds) (output : String)
    (mkdirOk : String → Bool) (fs0 : String → Bool) (workerCount n : ℕ) :
    GetTilesOut :=
  let d := createDir mkdirOk fs0 output
  if !d.1 then ⟨some (pathError output), [], 0⟩
  else ⟨none, issuedJobs zmin zmax bounds workerCount n,
        (run zmax bounds n (seedState zmin bounds)).2.count⟩

/-- Outcome of the sequential `part_000` run: the `getTile` invocations in
order, the error the outer callback received (if any), and the final count. -/
structure Run000Out where
  jobs : List Coords
  err : Option String
  count : ℕ

/-- Source `getTiles` of `part_000` (lines 224-274): the callback-chained
sequential loop.  `tileGetCallback(err)` aborts on `err`, otherwise
increments `count`, advances the cursor exactly like `getNextJob` (without
the entry guard) and either fetches the next tile or finishes.  `fuel`
bounds the recursion depth; every theorem is stated with enough fuel. -/
def run000 (zmax : ℕ) (bounds : ℕ → Bounds) (templateUrl output : String)
    (mkdirOk fetchOk : String → Bool) :
    ℕ → IterState → (String → Bool) → Run000Out
  | 0, s, _ => ⟨[], none, s.count⟩
  | fuel + 1, s, fs =>
    let c : Coords := ⟨s.z, s.x, s.y⟩
    let t := getTile templateUrl output c "png" mkdirOk fetchOk fs
    match t.report with
    | some e => ⟨[c], some e, s.count⟩
    | none =>
      let count := s.count + 1
      let y := s.y + 1
      if y ≤ (bounds s.z).south then
        let o := run000 zmax bounds templateUrl output mkdirOk fetchOk fuel
          ⟨s.z, s.x, y, count⟩ t.fs
        ⟨c :: o.jobs, o.err, o.count⟩
      else
        let x := s.x + 1
        let y2 := (bounds s.z).north
        if x ≤ (bounds s.z).east then
          let o := run000 zmax bounds templateUrl output mkdirOk fetchOk fuel
            ⟨s.z, x, y2, count⟩ t.fs
          ⟨c :: o.jobs, o.err, o.count⟩
        else
          let z := s.z + 1
          if z ≤ zmax then
            let o := run000 zmax bounds templateUrl output mkdirOk fetchOk fuel
              ⟨z, (bounds z).west, (bounds z).north, count⟩ t.fs
            ⟨c :: o.jobs, o.err, o.count⟩
          else ⟨[c], none, count⟩

/-- Consecutive integers starting at `a`, `n` of them. -/
def intRangeAux (a : ℤ) : ℕ → List ℤ
  | 0 => []
  | n + 1 => a :: intRangeAux (a + 1) n

/-- The inclusive integer range `[a, b]` as a list. -/
def intRange (a b : ℤ) : List ℤ :=
  intRangeAux a (b + 1 - a).toNat

/-- One column of tile addresses: fixed `z` and `x`, `y` from `a` to `b`. -/
def colCoords (z : ℕ) (x a b : ℤ) : List Coords :=
  (intRange a b).map fun yy => ⟨z, x, yy⟩

/-- The addresses of one zoom level from column `x` eastwards, in x-major
y-fastest order. -/
def rectCoords (z : ℕ) (b : Bounds) (x : ℤ) : List Coords :=
  (intRange x b.east).flatMap fun xx => colCoords z xx b.north b.south

/-- All addresses from zoom `z` to `zmax` in the canonical nested order. -/
def zoomSeq (zmax : ℕ) (bounds : ℕ → Bounds) (z : ℕ) : List Coords :=
  ((List.range (zmax + 1 - z)).map fun i => z + i).flatMap fun zz =>
    rectCoords zz (bounds zz) (bounds zz).west

/-- The addresses the iterator has yet to emit when its cursor (the last
address handed out) is `s`. -/
def remaining (zmax : ℕ) (bounds : ℕ → Bounds) (s : IterState) : List Coords :=
  if zmax < s.z then []
  else colCoords s.z s.x (s.y + 1) (bounds s.z).south
    ++ (rectCoords s.z (bounds s.z) (s.x + 1) ++ zoomSeq zmax bounds (s.z + 1))

/-- Number of future `count` increments from state `s`: one per remaining
address, plus one for the final exhausting call (which still increments). -/
def credits (zmax : ℕ) (bounds : ℕ → Bounds) (s : IterState) : ℕ :=
  (remaining zmax bounds s).length + (if s.z ≤ zmax then 1 else 0)

/-- The cursor is inside the current zoom level's bounds (vacuous once the
iterator has moved past `zmax`). -/
def ValidState (zmax : ℕ) (bounds : ℕ → Bounds) (s : IterState) : Prop :=
  s.z ≤ zmax →
    (bounds s.z).west ≤ s.x ∧ s.x ≤ (bounds s.z).east ∧
    (bounds s.z).north ≤ s.y ∧ s.y ≤ (bounds s.z).south

/-- Strict nested ordering on addresses: by zoom, then column, then row. -/
def coordLt (c d : Coords) : Prop :=
  c.z < d.z ∨ (c.z = d.z ∧ (c.x < d.x ∨ (c.x = d.x ∧ c.y < d.y)))

instance (c d : Coords) : Decidable (coordLt c d) := by
  unfold coordLt; infer_instance

lemma intRangeAux_length (a : ℤ) (n : ℕ) : (intRangeAux a n).length = n := by
  induction n generalizing a with
  | zero => rfl
  | succ n ih => simp [intRangeAux, ih]

lemma intRange_length (a b : ℤ) : (intRange a b).length = (b + 1 - a).toNat := by
  simp [intRange, intRangeAux_length]

lemma mem_intRangeAux {x a : ℤ} {n : ℕ} : x ∈ intRangeAux a n ↔ a ≤ x ∧ x < a + n := by
  induction n generalizing a with
  | zero =>
    simp only [intRangeAux, List.not_mem_nil, false_iff, Nat.cast_zero, add_zero]
    omega
  | succ n ih => simp [intRangeAux, ih]; omega

lemma mem_intRange {x a b : ℤ} : x ∈ intRange a b ↔ a ≤ x ∧ x ≤ b := by
  rw [intRange, mem_intRangeAux]; omega

lemma intRange_nil {a b : ℤ} (h : b < a) : intRange a b = [] := by
  rw [intRange, show (b + 1 - a).toNat = 0 by omega]; rfl

lemma intRange_cons {a b : ℤ} (h : a ≤ b) : intRange a b = a :: intRange (a + 1) b := by
  rw [intRange, show (b + 1 - a).toNat = (b + 1 - (a + 1)).toNat + 1 by omega]
  rfl

lemma intRangeAux_pairwise (a : ℤ) (n : ℕ) :
    (intRangeAux a n).Pairwise (· < ·) := by
  induction n generalizing a with
  | zero => exact List.Pairwise.nil
  | succ n ih =>
    refine List.Pairwise.cons (fun x hx => ?_) (ih (a + 1))
    have := mem_intRangeAux.mp hx
    omega

lemma intRange_pairwise (a b : ℤ) : (intRange a b).Pairwise (· < ·) :=
  intRangeAux_pairwise a _

lemma colCoords_length (z : ℕ) (x a b : ℤ) :
    (colCoords z x a b).length = (b + 1 - a).toNat := by
  simp [colCoords, intRange_length]

lemma colCoords_nil {a b : ℤ} (z : ℕ) (x : ℤ) (h : b < a) : colCoords z x a b = [] := by
  simp [colCoords, intRange_nil h]

lemma colCoords_cons {a b : ℤ} (z : ℕ) (x : ℤ) (h : a ≤ b) :
    colCoords z x a b = ⟨z, x, a⟩ :: colCoords z x (a + 1) b := by
  simp [colCoords, intRange_cons h]

lemma mem_colCoords {c : Coords} {z : ℕ} {x a b : ℤ} (h : c ∈ colCoords z x a b) :
    c.z = z ∧ c.x = x ∧ a ≤ c.y ∧ c.y ≤ b := by
  simp only [colCoords, List.mem_map] at h
  obtain ⟨yy, hmem, rfl⟩ := h
  exact ⟨rfl, rfl, (mem_intRange.mp hmem).1, (mem_intRange.mp hmem).2⟩

lemma rectCoords_nil {b : Bounds} (z : ℕ) {x : ℤ} (h : b.east < x) :
    rectCoords z b x = [] := by
  simp [rectCoords, intRange_nil h]

lemma rectCoords_cons {b : Bounds} (z : ℕ) {x : ℤ} (h : x ≤ b.east) :
    rectCoords z b x = colCoords z x b.north b.south ++ rectCoords z b (x + 1) := by
  rw [rectCoords, intRange_cons h, List.flatMap_cons]; rfl

lemma mem_rectCoords {c : Coords} {z : ℕ} {b : Bounds} {x : ℤ}
    (h : c ∈ rectCoords z b x) : c.z = z ∧ x ≤ c.x ∧ c.x ≤ b.east := by
  simp only [rectCoords, List.mem_flatMap] at h
  obtain ⟨xx, hmem, hc⟩ := h
  obtain ⟨hz, hx, -⟩ := mem_colCoords hc
  exact ⟨hz, by rw [hx]; exact (mem_intRange.mp hmem).1,
    by rw [hx]; exact (mem_intRange.mp hmem).2⟩

lemma zoomSeq_nil {zmax z : ℕ} (bounds : ℕ → Bounds) (h : zmax < z) :
    zoomSeq zmax bounds z = [] := by
  rw [zoomSeq, show zmax + 1 - z = 0 by omega]; rfl

lemma zoomSeq_step {zmax z : ℕ} (bounds : ℕ → Bounds) (h : z ≤ zmax) :
    zoomSeq zmax bounds z
      = rectCoords z (bounds z) (bounds z).west ++ zoomSeq zmax bounds (z + 1) := by
  rw [zoomSeq, show zmax + 1 - z = (zmax + 1 - (z + 1)) + 1 by omega,
    List.range_succ_eq_map, List.map_cons, List.flatMap_cons, List.map_map]
  have h2 : ((fun i : ℕ => z + i) ∘ Nat.succ) = fun i : ℕ => (z + 1) + i := by
    funext i; simp [Function.comp]; omega
  rw [h2, add_zero]; rfl

lemma mem_zoomSeq {c : Coords} {zmax z : ℕ} {bounds : ℕ → Bounds}
    (h : c ∈ zoomSeq zmax bounds z) : z ≤ c.z ∧ c.z ≤ zmax := by
  simp only [zoomSeq, List.mem_flatMap, List.mem_map, List.mem_range] at h
  obtain ⟨zz, ⟨i, hi, rfl⟩, hc⟩ := h
  have := (mem_rectCoords hc).1
  omega

lemma remaining_of_le {zmax : ℕ} {bounds : ℕ → Bounds} {s : IterState}
    (h : s.z ≤ zmax) :
    remaining zmax bounds s
      = colCoords s.z s.x (s.y + 1) (bounds s.z).south
        ++ (rectCoords s.z (bounds s.z) (s.x + 1) ++ zoomSeq zmax bounds (s.z + 1)) := by
  rw [remaining, if_neg (by omega)]

lemma remaining_of_gt {zmax : ℕ} {bounds : ℕ → Bounds} {s : IterState}
    (h : zmax < s.z) : remaining zmax bounds s = [] := by
  rw [remaining, if_pos h]

/-- One `getNextJob` call emits exactly the head of the remaining list, leaves
the tail as the new remaining list, keeps the cursor valid, and increments
`count` iff the zoom cursor had not yet passed `zmax`. -/
lemma step_spec (zmax : ℕ) (bounds : ℕ → Bounds)
    (H : ∀ z, z ≤ zmax →
      (bounds z).west ≤ (bounds z).east ∧ (bounds z).north ≤ (bounds z).south)
    (s : IterState) (hs : ValidState zmax bounds s) :
    (getNextJob zmax bounds s).1 = (remaining zmax bounds s).head? ∧
    remaining zmax bounds (getNextJob zmax bounds s).2 = (remaining zmax bounds s).tail ∧
    ValidState zmax bounds (getNextJob zmax bounds s).2 ∧
    (getNextJob zmax bounds s).2.count = s.count + (if s.z ≤ zmax then 1 else 0) ∧
    credits zmax bounds (getNextJob zmax bounds s).2
      = credits zmax bounds s - (if s.z ≤ zmax then 1 else 0) := by
  by_cases hgt : zmax < s.z
  · have hg : getNextJob zmax bounds s = (none, s) := by simp [getNextJob, hgt]
    have hrem : remaining zmax bounds s = [] := remaining_of_gt hgt
    have hif : (if s.z ≤ zmax then (1 : ℕ) else 0) = 0 := by rw [if_neg]; omega
    rw [hg, hrem, hif]
    exact ⟨rfl, by simp [remaining_of_gt hgt], hs, rfl, rfl⟩
  · have hz : s.z ≤ zmax := by omega
    obtain ⟨hwx, hxe, hny, hys⟩ := hs hz
    obtain ⟨hwe, hns⟩ := H s.z hz
    have hif : (if s.z ≤ zmax then (1 : ℕ) else 0) = 1 := if_pos hz
    rw [hif]
    by_cases hy : s.y + 1 ≤ (bounds s.z).south
    · have hg : getNextJob zmax bounds s
          = (some ⟨s.z, s.x, s.y + 1⟩, ⟨s.z, s.x, s.y + 1, s.count + 1⟩) := by
        simp [getNextJob, hgt, hy]
      have hrem : remaining zmax bounds s
          = ⟨s.z, s.x, s.y + 1⟩ :: (colCoords s.z s.x (s.y + 1 + 1) (bounds s.z).south
            ++ (rectCoords s.z (bounds s.z) (s.x + 1) ++ zoomSeq zmax bounds (s.z + 1))) := by
        rw [remaining_of_le hz, colCoords_cons _ _ hy, List.cons_append]
      have hrem' : remaining zmax bounds (⟨s.z, s.x, s.y + 1, s.count + 1⟩ : IterState)
          = colCoords s.z s.x (s.y + 1 + 1) (bounds s.z).south
            ++ (rectCoords s.z (bounds s.z) (s.x + 1) ++ zoomSeq zmax bounds (s.z + 1)) := by
        rw [remaining_of_le (s := ⟨s.z, s.x, s.y + 1, s.count + 1⟩) hz]
      rw [hg, hrem]
      refine ⟨rfl, by rw [hrem']; rfl, fun _ => ⟨hwx, hxe, show (bounds s.z).north ≤ s.y + 1 by omega, hy⟩, rfl, ?_⟩
      simp only [credits, hrem, hrem', List.length_cons, List.length_append]
      simp [hz]
    · have hcol : colCoords s.z s.x (s.y + 1) (bounds s.z).south = [] :=
        colCoords_nil _ _ (by omega)
      by_cases hx : s.x + 1 ≤ (bounds s.z).east
      · have hg : getNextJob zmax bounds s
            = (some ⟨s.z, s.x + 1, (bounds s.z).north⟩,
               ⟨s.z, s.x + 1, (bounds s.z).north, s.count + 1⟩) := by
          simp [getNextJob, hgt, hy, hx]
        have hrem : remaining zmax bounds s
            = ⟨s.z, s.x + 1, (bounds s.z).north⟩ ::
              (colCoords s.z (s.x + 1) ((bounds s.z).north + 1) (bounds s.z).south
                ++ (rectCoords s.z (bounds s.z) (s.x + 1 + 1) ++ zoomSeq zmax bounds (s.z + 1))) := by
          rw [remaining_of_le hz, hcol, rectCoords_cons _ hx, colCoords_cons _ _ hns]
          simp [List.append_assoc]
        have hrem' : remaining zmax bounds
              (⟨s.z, s.x + 1, (bounds s.z).north, s.count + 1⟩ : IterState)
            = colCoords s.z (s.x + 1) ((bounds s.z).north + 1) (bounds s.z).south
              ++ (rectCoords s.z (bounds s.z) (s.x + 1 + 1) ++ zoomSeq zmax bounds (s.z + 1)) := by
          rw [remaining_of_le (s := ⟨s.z, s.x + 1, (bounds s.z).north, s.count + 1⟩) hz]
        rw [hg, hrem]
        refine ⟨rfl, by rw [hrem']; rfl, fun _ => ⟨show (bounds s.z).west ≤ s.x + 1 by omega, hx, le_refl _, hns⟩, rfl, ?_⟩
        simp only [credits, hrem, hrem', List.length_cons, List.length_append]
        simp [hz]
      · have hrect : rectCoords s.z (bounds s.z) (s.x + 1) = [] :=
          rectCoords_nil _ (by omega)
        by_cases hz2 : s.z + 1 ≤ zmax
        · obtain ⟨hwe', hns'⟩ := H (s.z + 1) hz2
          have hg : getNextJob zmax bounds s
              = (some ⟨s.z + 1, (bounds (s.z + 1)).west, (bounds (s.z + 1)).north⟩,
                 ⟨s.z + 1, (bounds (s.z + 1)).west, (bounds (s.z + 1)).north, s.count + 1⟩) := by
            simp [getNextJob, hgt, hy, hx, hz2]
          have hrem : remaining zmax bounds s
              = ⟨s.z + 1, (bounds (s.z + 1)).west, (bounds (s.z + 1)).north⟩ ::
                (colCoords (s.z + 1) (bounds (s.z + 1)).west ((bounds (s.z + 1)).north + 1)
                    (bounds (s.z + 1)).south
                  ++ (rectCoords (s.z + 1) (bounds (s.z + 1)) ((bounds (s.z + 1)).west + 1)
                    ++ zoomSeq zmax bounds (s.z + 1 + 1))) := by
            rw [remaining_of_le hz, hcol, hrect, zoomSeq_step bounds hz2,
              rectCoords_cons _ hwe', colCoords_cons _ _ hns']
            simp [List.append_assoc]
          have hrem' : remaining zmax bounds
                (⟨s.z + 1, (bounds (s.z + 1)).west, (bounds (s.z + 1)).north, s.count + 1⟩ : IterState)
              = colCoords (s.z + 1) (bounds (s.z + 1)).west ((bounds (s.z + 1)).north + 1)
                  (bounds (s.z + 1)).south
                ++ (rectCoords (s.z + 1) (bounds (s.z + 1)) ((bounds (s.z + 1)).west + 1)
                  ++ zoomSeq zmax bounds (s.z + 1 + 1)) := by
            rw [remaining_of_le (s :=
              ⟨s.z + 1, (bounds (s.z + 1)).west, (bounds (s.z + 1)).north, s.count + 1⟩) hz2]
          rw [hg, hrem]
          refine ⟨rfl, by rw [hrem']; rfl, fun _ => ⟨le_refl _, hwe', le_refl _, hns'⟩, rfl, ?_⟩
          simp only [credits, hrem, hrem', List.length_cons, List.length_append]
          simp [hz, hz2]
        · have hg : getNextJob zmax bounds s
              = (none,
                 ⟨s.z + 1, (bounds (s.z + 1)).west, (bounds (s.z + 1)).north, s.count + 1⟩) := by
            simp [getNextJob, hgt, hy, hx, hz2]
          have hrem : remaining zmax bounds s = [] := by
            rw [remaining_of_le hz, hcol, hrect, zoomSeq_nil bounds (by omega)]
            rfl
          have hrem' : remaining zmax bounds
                (⟨s.z + 1, (bounds (s.z + 1)).west, (bounds (s.z + 1)).north, s.count + 1⟩ : IterState)
              = [] := remaining_of_gt (show zmax < s.z + 1 by omega)
          rw [hg, hrem]
          refine ⟨rfl, by rw [hrem']; rfl, fun h => absurd h (show ¬ (s.z + 1 ≤ zmax) by omega), rfl, ?_⟩
          simp only [credits, hrem, hrem', List.length_nil]
          simp [hz, show ¬ (s.z + 1 ≤ zmax) by omega]

/-- The master's `n`-message loop emits exactly the first `n` remaining
addresses, its count grows by one per non-dead call, and the cursor stays
valid with the rest of the remaining list still owed. -/
lemma run_spec (zmax : ℕ) (bounds : ℕ → Bounds)
    (H : ∀ z, z ≤ zmax →
      (bounds z).west ≤ (bounds z).east ∧ (bounds z).north ≤ (bounds z).south) :
    ∀ (n : ℕ) (s : IterState), ValidState zmax bounds s →
      (run zmax bounds n s).1 = (remaining zmax bounds s).take n ∧
      (run zmax bounds n s).2.count = s.count + min n (credits zmax bounds s) ∧
      ValidState zmax bounds (run zmax bounds n s).2 ∧
      remaining zmax bounds (run zmax bounds n s).2 = (remaining zmax bounds s).drop n ∧
      credits zmax bounds (run zmax bounds n s).2
        = credits zmax bounds s - min n (credits zmax bounds s) := by
  intro n
  induction n with
  | zero => intro s hs; exact ⟨by simp [run], by simp [run], hs, by simp [run], by simp [run]⟩
  | succ n ih =>
    intro s hs
    obtain ⟨h1, h2, h3, h4, h5⟩ := step_spec zmax bounds H s hs
    obtain ⟨g1, g2, g3, g4, g5⟩ := ih (getNextJob zmax bounds s).2 h3
    have hrun : run zmax bounds (n + 1) s
        = ((getNextJob zmax bounds s).1.toList
            ++ (run zmax bounds n (getNextJob zmax bounds s).2).1,
           (run zmax bounds n (getNextJob zmax bounds s).2).2) := rfl
    have hinc : (if s.z ≤ zmax then (1 : ℕ) else 0) ≤ credits zmax bounds s := by
      by_cases hc : s.z ≤ zmax
      · rw [if_pos hc, credits, if_pos hc]; omega
      · rw [if_neg hc]; omega
    have hzero : (if s.z ≤ zmax then (1 : ℕ) else 0) = 0 → credits zmax bounds s = 0 := by
      intro h0
      have hc : ¬ s.z ≤ zmax := by
        by_contra hc; rw [if_pos hc] at h0; omega
      rw [credits, if_neg hc, remaining_of_gt (by omega), List.length_nil]
    refine ⟨?_, ?_, by rw [hrun]; exact g3, ?_, ?_⟩
    · rw [hrun]
      cases hrm : remaining zmax bounds s with
      | nil =>
        rw [hrm] at h1 h2
        simp only [List.head?_nil] at h1
        rw [h1, g1, h2]
        simp
      | cons c rest =>
        rw [hrm] at h1 h2
        simp only [List.head?_cons] at h1
        rw [h1, g1, h2]
        simp
    · rw [hrun]
      simp only [g2, h4, h5]
      by_cases hc : (if s.z ≤ zmax then (1 : ℕ) else 0) = 1
      · rw [hc] at h4 h5 ⊢
        have := hzero
        omega
      · have h0 : (if s.z ≤ zmax then (1 : ℕ) else 0) = 0 := by
          by_cases hcc : s.z ≤ zmax
          · exact absurd (if_pos hcc) hc
          · exact if_neg hcc
        rw [h0] at h4 h5 ⊢
        have := hzero h0
        omega
    · rw [hrun]
      rw [g4, h2]
      cases hrm : remaining zmax bounds s with
      | nil => simp
      | cons c rest => simp
    · rw [hrun]
      rw [g5, h5]
      by_cases hc : s.z ≤ zmax
      · rw [if_pos hc] at h5 ⊢
        have h1le : 1 ≤ credits zmax bounds s := by rw [credits, if_pos hc]; omega
        omega
      · rw [if_neg hc] at h5 ⊢
        have := hzero (if_neg hc)
        omega

/-- Past `zmax` the iterator refuses immediately and does not move. -/
lemma getNextJob_of_zgt {zmax : ℕ} {bounds : ℕ → Bounds} {s : IterState}
    (h : zmax < s.z) : getNextJob zmax bounds s = (none, s) := by
  simp [getNextJob, h]

/-- Once the zoom cursor has passed `zmax`, the loop never moves again. -/
lemma run_of_zgt (zmax : ℕ) (bounds : ℕ → Bounds) :
    ∀ (n : ℕ) (s : IterState), zmax < s.z → run zmax bounds n s = ([], s) := by
  intro n
  induction n with
  | zero => intro s _; rfl
  | succ n ih =>
    intro s h
    have hg : getNextJob zmax bounds s = (none, s) := by simp [getNextJob, h]
    show ((getNextJob zmax bounds s).1.toList
        ++ (run zmax bounds n (getNextJob zmax bounds s).2).1,
      (run zmax bounds n (getNextJob zmax bounds s).2).2) = ([], s)
    rw [hg, ih s h]
    rfl

/-- A call that reports exhaustion leaves the zoom cursor past `zmax`. -/
lemma getNextJob_none_zgt {zmax : ℕ} {bounds : ℕ → Bounds} {s : IterState}
    (h : (getNextJob zmax bounds s).1 = none) :
    zmax < (getNextJob zmax bounds s).2.z := by
  by_cases hgt : zmax < s.z
  · rw [getNextJob_of_zgt hgt]; exact hgt
  · rw [getNextJob, if_neg hgt] at h ⊢
    by_cases hy : s.y + 1 ≤ (bounds s.z).south
    · simp [hy] at h
    · rw [if_neg hy] at h ⊢
      by_cases hx : s.x + 1 ≤ (bounds s.z).east
      · simp [hx] at h
      · rw [if_neg hx] at h ⊢
        by_cases hz2 : s.z + 1 ≤ zmax
        · simp [hz2] at h
        · rw [if_neg hz2]
          simp
          omega

/-- Exhaustion is absorbing: after a `none` result every later call in the
same run also returns `none`. -/
lemma getNextJob_none_forever (zmax : ℕ) (bounds : ℕ → Bounds) (s : IterState)
    (h : (getNextJob zmax bounds s).1 = none) (k : ℕ) :
    (getNextJob zmax bounds (run zmax bounds k s).2).1 = none := by
  cases k with
  | zero => exact h
  | succ k =>
    have hz' : zmax < (getNextJob zmax bounds s).2.z := getNextJob_none_zgt h
    have hrun : (run zmax bounds (k + 1) s).2
        = (run zmax bounds k (getNextJob zmax bounds s).2).2 := rfl
    rw [hrun, run_of_zgt zmax bounds k _ hz']
    show (getNextJob zmax bounds (getNextJob zmax bounds s).2).1 = none
    rw [getNextJob_of_zgt hz']

/-- Splitting a run into two phases. -/
lemma run_add (zmax : ℕ) (bounds : ℕ → Bounds) :
    ∀ (m k : ℕ) (s : IterState),
      run zmax bounds (m + k) s
        = ((run zmax bounds m s).1 ++ (run zmax bounds k (run zmax bounds m s).2).1,
           (run zmax bounds k (run zmax bounds m s).2).2) := by
  intro m
  induction m with
  | zero => intro k s; simp [run]
  | succ m ih =>
    intro k s
    have hms : m + 1 + k = (m + k) + 1 := by omega
    rw [hms]
    show ((getNextJob zmax bounds s).1.toList
        ++ (run zmax bounds (m + k) (getNextJob zmax bounds s).2).1,
      (run zmax bounds (m + k) (getNextJob zmax bounds s).2).2) = _
    rw [ih k (getNextJob zmax bounds s).2]
    show _ = (((getNextJob zmax bounds s).1.toList
        ++ (run zmax bounds m (getNextJob zmax bounds s).2).1)
        ++ (run zmax bounds k ((run zmax bounds m (getNextJob zmax bounds s).2).2)).1,
      (run zmax bounds k ((run zmax bounds m (getNextJob zmax bounds s).2).2)).2)
    simp [List.append_assoc]

/-- The seed cursor is valid whenever the per-zoom bounds are well ordered. -/
lemma seedState_valid (zmin zmax : ℕ) (bounds : ℕ → Bounds)
    (H : ∀ z, z ≤ zmax →
      (bounds z).west ≤ (bounds z).east ∧ (bounds z).north ≤ (bounds z).south) :
    ValidState zmax bounds (seedState zmin bounds) := by
  intro hz
  obtain ⟨hwe, hns⟩ := H zmin hz
  exact ⟨le_refl _, hwe, le_refl _, hns⟩

/-- The canonical sequence is the seed followed by what the seeded cursor
still owes. -/
lemma zoomSeq_eq_seed_cons (zmin zmax : ℕ) (bounds : ℕ → Bounds)
    (H : ∀ z, z ≤ zmax →
      (bounds z).west ≤ (bounds z).east ∧ (bounds z).north ≤ (bounds z).south)
    (hz : zmin ≤ zmax) :
    zoomSeq zmax bounds zmin
      = seedCoords zmin bounds :: remaining zmax bounds (seedState zmin bounds) := by
  obtain ⟨hwe, hns⟩ := H zmin hz
  rw [zoomSeq_step bounds hz, rectCoords_cons _ hwe, colCoords_cons _ _ hns,
    remaining_of_le (s := seedState zmin bounds) hz]
  simp [seedCoords, seedState, List.append_assoc]

lemma pairwise_flatMap {α β : Type _} {R : β → β → Prop} {l : List α} {f : α → List β}
    (h1 : ∀ a ∈ l, (f a).Pairwise R)
    (h2 : l.Pairwise fun a a' => ∀ x ∈ f a, ∀ y ∈ f a', R x y) :
    (l.flatMap f).Pairwise R := by
  rw [List.flatMap_def, List.pairwise_flatten]
  constructor
  · intro l' hl'
    obtain ⟨a, ha, rfl⟩ := List.mem_map.mp hl'
    exact h1 a ha
  · rw [List.pairwise_map]
    exact h2

lemma coordLt_irrefl (c : Coords) : ¬ coordLt c c := by
  rw [coordLt]; omega

lemma colCoords_pairwise (z : ℕ) (x a b : ℤ) :
    (colCoords z x a b).Pairwise coordLt := by
  rw [colCoords, List.pairwise_map]
  refine (intRange_pairwise a b).imp ?_
  intro y1 y2 h
  exact Or.inr ⟨rfl, Or.inr ⟨rfl, h⟩⟩

lemma rectCoords_pairwise (z : ℕ) (b : Bounds) (x : ℤ) :
    (rectCoords z b x).Pairwise coordLt := by
  rw [rectCoords]
  refine pairwise_flatMap (fun xx _ => colCoords_pairwise z xx b.north b.south) ?_
  refine (intRange_pairwise x b.east).imp ?_
  intro x1 x2 hx c hc d hd
  obtain ⟨hcz, hcx, -⟩ := mem_colCoords hc
  obtain ⟨hdz, hdx, -⟩ := mem_colCoords hd
  exact Or.inr ⟨hcz.trans hdz.symm, Or.inl (by rw [hcx, hdx]; exact hx)⟩

lemma zoomSeq_pairwise (zmax : ℕ) (bounds : ℕ → Bounds) (z : ℕ) :
    (zoomSeq zmax bounds z).Pairwise coordLt := by
  rw [zoomSeq]
  refine pairwise_flatMap
    (fun zz _ => rectCoords_pairwise zz (bounds zz) (bounds zz).west) ?_
  rw [List.pairwise_map]
  refine (List.pairwise_lt_range _).imp ?_
  intro i j hij c hc d hd
  have hc' := (mem_rectCoords hc).1
  have hd' := (mem_rectCoords hd).1
  exact Or.inl (by rw [hc', hd']; omega)

lemma rectCoords_length (z : ℕ) (b : Bounds) (x : ℤ) :
    (rectCoords z b x).length
      = (b.east + 1 - x).toNat * (b.south + 1 - b.north).toNat := by
  rw [rectCoords, List.length_flatMap]
  have hmap : (intRange x b.east).map (List.length ∘ fun xx => colCoords z xx b.north b.south)
      = (intRange x b.east).map fun _ => (b.south + 1 - b.north).toNat := by
    refine List.map_congr_left ?_
    intro xx _
    simp [Function.comp, colCoords_length]
  rw [hmap, List.map_const', List.sum_replicate, smul_eq_mul, intRange_length]

/-- The canonical sequence length is the closed-form double sum. -/
lemma zoomSeq_length_sum (zmax : ℕ) (bounds : ℕ → Bounds)
    (H : ∀ z, z ≤ zmax →
      (bounds z).west ≤ (bounds z).east ∧ (bounds z).north ≤ (bounds z).south) :
    ∀ (d z : ℕ), zmax + 1 - z ≤ d →
      ((zoomSeq zmax bounds z).length : ℤ)
        = ∑ zz in Finset.Icc z zmax,
            ((bounds zz).east - (bounds zz).west + 1)
              * ((bounds zz).south - (bounds zz).north + 1) := by
  intro d
  induction d with
  | zero =>
    intro z hd
    rw [zoomSeq_nil bounds (by omega), Finset.Icc_eq_empty (by omega)]
    simp
  | succ d ih =>
    intro z hd
    by_cases hz : z ≤ zmax
    · obtain ⟨hwe, hns⟩ := H z hz
      have hicc : Finset.Icc z zmax = insert z (Finset.Icc (z + 1) zmax) := by
        ext w
        simp only [Finset.mem_Icc, Finset.mem_insert]
        omega
      rw [zoomSeq_step bounds hz, List.length_append, rectCoords_length,
        hicc, Finset.sum_insert (by simp [Finset.mem_Icc])]
      push_cast
      rw [ih (z + 1) (by omega)]
      rw [Int.toNat_of_nonneg (by omega), Int.toNat_of_nonneg (by omega)]
      ring
    · rw [zoomSeq_nil bounds (by omega), Finset.Icc_eq_empty (by omega)]
      simp

/-- Facts about a run from the seed: emissions are a prefix of the canonical
sequence and the count saturates at the canonical length. -/
lemma seeded_run_facts (zmin zmax : ℕ) (bounds : ℕ → Bounds)
    (H : ∀ z, z ≤ zmax →
      (bounds z).west ≤ (bounds z).east ∧ (bounds z).north ≤ (bounds z).south)
    (hz : zmin ≤ zmax) (n : ℕ) :
    seedCoords zmin bounds :: (run zmax bounds n (seedState zmin bounds)).1
      = (zoomSeq zmax bounds zmin).take (n + 1) ∧
    (run zmax bounds n (seedState zmin bounds)).2.count
      = min n (zoomSeq zmax bounds zmin).length ∧
    credits zmax bounds (run zmax bounds n (seedState zmin bounds)).2
      = (zoomSeq zmax bounds zmin).length
        - min n (zoomSeq zmax bounds zmin).length := by
  obtain ⟨r1, r2, -, -, r5⟩ :=
    run_spec zmax bounds H n (seedState zmin bounds) (seedState_valid zmin zmax bounds H)
  have hcons := zoomSeq_eq_seed_cons zmin zmax bounds H hz
  have hcred : credits zmax bounds (seedState zmin bounds)
      = (zoomSeq zmax bounds zmin).length := by
    rw [credits, if_pos (show (seedState zmin bounds).z ≤ zmax from hz), hcons]
    simp
  refine ⟨?_, ?_, ?_⟩
  · rw [r1, hcons, List.take_succ_cons]
  · rw [r2, hcred]; simp [seedState]
  · rw [r5, hcred]

/-- C2: for any per-zoom bounds that are well ordered on `[zmin, zmax]` (as the
`bboxToBounds` output of a genuine bounding box is) with `zmin ≤ zmax`, once the
master has processed at least as many completion messages as there are
addresses (a full run processes `N - 1 + workerCount ≥ N` of them), the total
number of addresses put into jobs by the iterator — the seed plus every
`getNextJob` yield — and the final `count` both equal the closed-form
double sum over the zoom range. -/
theorem iterator_count_closed_form (zmin zmax n : ℕ) (bounds : ℕ → Bounds)
    (H : ∀ z, z ≤ zmax →
      (bounds z).west ≤ (bounds z).east ∧ (bounds z).north ≤ (bounds z).south)
    (hzz : zmin ≤ zmax) (hn : (zoomSeq zmax bounds zmin).length ≤ n) :
    ((seedCoords zmin bounds
        :: (run zmax bounds n (seedState zmin bounds)).1).length : ℤ)
      = ∑ zz in Finset.Icc zmin zmax,
          ((bounds zz).east - (bounds zz).west + 1)
            * ((bounds zz).south - (bounds zz).north + 1) ∧
    (((run zmax bounds n (seedState zmin bounds)).2.count : ℤ))
      = ∑ zz in Finset.Icc zmin zmax,
          ((bounds zz).east - (bounds zz).west + 1)
            * ((bounds zz).south - (bounds zz).north + 1) := by
  obtain ⟨f1, f2, -⟩ := seeded_run_facts zmin zmax bounds H hzz n
  have hsum := zoomSeq_length_sum zmax bounds H (zmax + 1 - zmin) zmin (le_refl _)
  constructor
  · rw [f1, List.take_of_length_le (by omega)]
    exact hsum
  · rw [f2, min_eq_right hn]
    exact hsum

/-- C2 witness: one zoom level `[0,0]`, bounds `west 0 ≤ east 1`,
`north 0 ≤ south 0` (two tiles), two completion messages. -/
theorem iterator_count_closed_form_witness :
    ((∀ z, z ≤ 0 → ((fun _ : ℕ => (⟨0, 0, 1, 0⟩ : Bounds)) z).west
        ≤ ((fun _ : ℕ => (⟨0, 0, 1, 0⟩ : Bounds)) z).east ∧
      ((fun _ : ℕ => (⟨0, 0, 1, 0⟩ : Bounds)) z).north
        ≤ ((fun _ : ℕ => (⟨0, 0, 1, 0⟩ : Bounds)) z).south) ∧
      (0 : ℕ) ≤ 0 ∧
      (zoomSeq 0 (fun _ => ⟨0, 0, 1, 0⟩) 0).length ≤ 2) ∧
    (((seedCoords 0 (fun _ => ⟨0, 0, 1, 0⟩)
        :: (run 0 (fun _ => ⟨0, 0, 1, 0⟩) 2 (seedState 0 (fun _ => ⟨0, 0, 1, 0⟩))).1).length : ℤ)
      = ∑ zz in Finset.Icc 0 0,
          (((fun _ : ℕ => (⟨0, 0, 1, 0⟩ : Bounds)) zz).east
              - ((fun _ : ℕ => (⟨0, 0, 1, 0⟩ : Bounds)) zz).west + 1)
            * (((fun _ : ℕ => (⟨0, 0, 1, 0⟩ : Bounds)) zz).south
              - ((fun _ : ℕ => (⟨0, 0, 1, 0⟩ : Bounds)) zz).north + 1) ∧
    (((run 0 (fun _ => ⟨0, 0, 1, 0⟩) 2 (seedState 0 (fun _ => ⟨0, 0, 1, 0⟩))).2.count : ℤ))
      = ∑ zz in Finset.Icc 0 0,
          (((fun _ : ℕ => (⟨0, 0, 1, 0⟩ : Bounds)) zz).east
              - ((fun _ : ℕ => (⟨0, 0, 1, 0⟩ : Bounds)) zz).west + 1)
            * (((fun _ : ℕ => (⟨0, 0, 1, 0⟩ : Bounds)) zz).south
              - ((fun _ : ℕ => (⟨0, 0, 1, 0⟩ : Bounds)) zz).north + 1)) :=
  ⟨⟨by decide, by decide, by decide⟩,
    iterator_count_closed_form 0 0 2 (fun _ => ⟨0, 0, 1, 0⟩)
      (by decide) (by decide) (by decide)⟩

/-- C3: under the same hypotheses, the addresses handed out (seed first, then
the `getNextJob` yields in call order) are exactly the canonical nested
sequence — `z` ascending over `[zmin, zmax]`, within a zoom `x` ascending
from west to east, within a column `y` ascending from north to south and
varying fastest, with bounds recomputed at each new zoom — the sequence is
strictly increasing in the nested `(z, x, y)` order, and exhaustion is final:
once a call returns no job, every later call in the run returns no job. -/
theorem iterator_emission_order (zmin zmax n : ℕ) (bounds : ℕ → Bounds)
    (H : ∀ z, z ≤ zmax →
      (bounds z).west ≤ (bounds z).east ∧ (bounds z).north ≤ (bounds z).south)
    (hzz : zmin ≤ zmax) (hn : (zoomSeq zmax bounds zmin).length ≤ n) :
    seedCoords zmin bounds :: (run zmax bounds n (seedState zmin bounds)).1
      = zoomSeq zmax bounds zmin ∧
    (seedCoords zmin bounds
      :: (run zmax bounds n (seedState zmin bounds)).1).Pairwise coordLt ∧
    ∀ m k : ℕ,
      (getNextJob zmax bounds (run zmax bounds m (seedState zmin bounds)).2).1 = none →
      (getNextJob zmax bounds
        (run zmax bounds (m + k) (seedState zmin bounds)).2).1 = none := by
  obtain ⟨f1, -, -⟩ := seeded_run_facts zmin zmax bounds H hzz n
  have heq : seedCoords zmin bounds :: (run zmax bounds n (seedState zmin bounds)).1
      = zoomSeq zmax bounds zmin := by
    rw [f1, List.take_of_length_le (by omega)]
  refine ⟨heq, heq ▸ zoomSeq_pairwise zmax bounds zmin, ?_⟩
  intro m k hnone
  have hlater := getNextJob_none_forever zmax bounds
    (run zmax bounds m (seedState zmin bounds)).2 hnone k
  rw [run_add zmax bounds m k (seedState zmin bounds)]
  exact hlater

/-- C3 witness: two zoom levels of a one-column box. -/
theorem iterator_emission_order_witness :
    ((∀ z, z ≤ 1 → ((fun _ : ℕ => (⟨0, 1, 0, 0⟩ : Bounds)) z).west
        ≤ ((fun _ : ℕ => (⟨0, 1, 0, 0⟩ : Bounds)) z).east ∧
      ((fun _ : ℕ => (⟨0, 1, 0, 0⟩ : Bounds)) z).north
        ≤ ((fun _ : ℕ => (⟨0, 1, 0, 0⟩ : Bounds)) z).south) ∧
      (0 : ℕ) ≤ 1 ∧ (zoomSeq 1 (fun _ => ⟨0, 1, 0, 0⟩) 0).length ≤ 5) ∧
    (seedCoords 0 (fun _ => ⟨0, 1, 0, 0⟩)
        :: (run 1 (fun _ => ⟨0, 1, 0, 0⟩) 5 (seedState 0 (fun _ => ⟨0, 1, 0, 0⟩))).1
      = zoomSeq 1 (fun _ => ⟨0, 1, 0, 0⟩) 0 ∧
    (seedCoords 0 (fun _ => ⟨0, 1, 0, 0⟩)
      :: (run 1 (fun _ => ⟨0, 1, 0, 0⟩) 5 (seedState 0 (fun _ => ⟨0, 1, 0, 0⟩))).1).Pairwise coordLt ∧
    ∀ m k : ℕ,
      (getNextJob 1 (fun _ => ⟨0, 1, 0, 0⟩)
        (run 1 (fun _ => ⟨0, 1, 0, 0⟩) m (seedState 0 (fun _ => ⟨0, 1, 0, 0⟩))).2).1 = none →
      (getNextJob 1 (fun _ => ⟨0, 1, 0, 0⟩)
        (run 1 (fun _ => ⟨0, 1, 0, 0⟩) (m + k) (seedState 0 (fun _ => ⟨0, 1, 0, 0⟩))).2).1 = none) :=
  ⟨⟨by decide, by decide, by decide⟩,
    iterator_emission_order 0 1 5 (fun _ => ⟨0, 1, 0, 0⟩)
      (by decide) (by decide) (by decide)⟩

/-- C1 counterexample: with 2 workers over a single-tile box (bounds collapse
to one address at zoom 0), the master sends the same `coords` object to both
workers before any `getNextJob` call, so the address `(0,0,0)` occurs twice in
the issued-job sequence — the claim's "each Coordinate at most once" bound of
1 is violated. -/
theorem duplicate_first_job_issued :
    List.count (⟨0, 0, 0⟩ : Coords)
      (issuedJobs 0 0 (fun _ => ⟨0, 0, 0, 0⟩) 2 2) = 2 := by
  decide

/-- C1 amended: the addresses the iterator itself produces (seed plus
`getNextJob` yields) are pairwise distinct, and any address other than the
seed appears at most once among all jobs sent to workers; the exception forced
by the code is the seed itself, which the master broadcasts to every worker as
its initial job. -/
theorem issued_jobs_no_duplicate_amended (zmin zmax W n : ℕ) (bounds : ℕ → Bounds)
    (H : ∀ z, z ≤ zmax →
      (bounds z).west ≤ (bounds z).east ∧ (bounds z).north ≤ (bounds z).south) :
    (seedCoords zmin bounds
      :: (run zmax bounds n (seedState zmin bounds)).1).Nodup ∧
    ∀ c : Coords, c ≠ seedCoords zmin bounds →
      (issuedJobs zmin zmax bounds W n).count c ≤ 1 := by
  have hrepl : ∀ c : Coords, c ≠ seedCoords zmin bounds →
      (List.replicate W (seedCoords zmin bounds)).count c = 0 := by
    intro c hc
    rw [List.count_replicate, if_neg]
    simp only [beq_iff_eq]
    exact fun h => hc h.symm
  by_cases hz : zmin ≤ zmax
  · obtain ⟨f1, -, -⟩ := seeded_run_facts zmin zmax bounds H hz n
    have hpw : (seedCoords zmin bounds
        :: (run zmax bounds n (seedState zmin bounds)).1).Pairwise coordLt := by
      rw [f1]
      exact List.Pairwise.sublist (List.take_sublist _ _) (zoomSeq_pairwise zmax bounds zmin)
    have hnd : (seedCoords zmin bounds
        :: (run zmax bounds n (seedState zmin bounds)).1).Nodup :=
      hpw.imp fun h => by
        intro heq
        exact coordLt_irrefl _ (heq ▸ h)
    refine ⟨hnd, fun c hc => ?_⟩
    rw [issuedJobs, List.count_append, hrepl c hc]
    have hsub : (run zmax bounds n (seedState zmin bounds)).1.Sublist
        (seedCoords zmin bounds :: (run zmax bounds n (seedState zmin bounds)).1) :=
      List.sublist_cons_self _ _
    have := List.nodup_iff_count_le_one.mp hnd c
    have hle := hsub.count_le c
    omega
  · have hrun : run zmax bounds n (seedState zmin bounds)
        = ([], seedState zmin bounds) :=
      run_of_zgt zmax bounds n _ (show zmax < zmin by omega)
    rw [hrun]
    refine ⟨by simp, fun c hc => ?_⟩
    rw [issuedJobs, hrun, List.count_append, hrepl c hc]
    simp

/-- C1 amended witness: the two-tile configuration of the C2 witness with two
workers and three messages. -/
theorem issued_jobs_no_duplicate_amended_witness :
    (∀ z, z ≤ 0 → ((fun _ : ℕ => (⟨0, 0, 1, 0⟩ : Bounds)) z).west
        ≤ ((fun _ : ℕ => (⟨0, 0, 1, 0⟩ : Bounds)) z).east ∧
      ((fun _ : ℕ => (⟨0, 0, 1, 0⟩ : Bounds)) z).north
        ≤ ((fun _ : ℕ => (⟨0, 0, 1, 0⟩ : Bounds)) z).south) ∧
    ((seedCoords 0 (fun _ => ⟨0, 0, 1, 0⟩)
      :: (run 0 (fun _ => ⟨0, 0, 1, 0⟩) 3 (seedState 0 (fun _ => ⟨0, 0, 1, 0⟩))).1).Nodup ∧
    ∀ c : Coords, c ≠ seedCoords 0 (fun _ => ⟨0, 0, 1, 0⟩) →
      (issuedJobs 0 0 (fun _ => ⟨0, 0, 1, 0⟩) 2 3).count c ≤ 1) :=
  ⟨by decide,
    issued_jobs_no_duplicate_amended 0 0 2 3 (fun _ => ⟨0, 0, 1, 0⟩) (by decide)⟩

/-- C8: `lngToTile` maps any longitude in `[-180, 180)` into `[0, 2^z - 1]`
and is monotonically non-decreasing in the longitude for a fixed zoom. -/
theorem lngToTile_range_monotone (z : ℕ) (lng lng1 lng2 : ℚ)
    (h1 : -180 ≤ lng) (h2 : lng < 180) (h3 : lng1 ≤ lng2) :
    (0 ≤ lngToTile lng z ∧ lngToTile lng z ≤ 2 ^ z - 1) ∧
    lngToTile lng1 z ≤ lngToTile lng2 z := by
  have hpow : (0 : ℚ) < 2 ^ z := by positivity
  refine ⟨⟨?_, ?_⟩, ?_⟩
  · rw [lngToTile, Int.le_floor]
    push_cast
    have hnum : (0 : ℚ) ≤ (lng + 180) / 360 := by
      apply div_nonneg _ (by norm_num)
      linarith
    positivity
  · have hlt : lngToTile lng z < 2 ^ z := by
      rw [lngToTile, Int.floor_lt]
      push_cast
      have hnum : (lng + 180) / 360 < 1 := by
        rw [div_lt_one (by norm_num)]
        linarith
      calc (lng + 180) / 360 * 2 ^ z < 1 * 2 ^ z := by
            exact mul_lt_mul_of_pos_right hnum hpow
        _ = 2 ^ z := one_mul _
    omega
  · rw [lngToTile, lngToTile]
    apply Int.floor_le_floor
    have h360 : (lng1 + 180) / 360 ≤ (lng2 + 180) / 360 := by linarith
    exact mul_le_mul_of_nonneg_right h360 hpow.le

/-- C8 witness: zoom 1, longitude 0 in range, and the pair `-10 ≤ 10`. -/
theorem lngToTile_range_monotone_witness :
    ((-180 : ℚ) ≤ 0 ∧ (0 : ℚ) < 180 ∧ (-10 : ℚ) ≤ 10) ∧
    ((0 ≤ lngToTile 0 1 ∧ lngToTile 0 1 ≤ 2 ^ 1 - 1) ∧
      lngToTile (-10) 1 ≤ lngToTile 10 1) :=
  ⟨⟨by decide, by decide, by decide⟩,
    lngToTile_range_monotone 1 0 (-10) 10 (by decide) (by decide) (by decide)⟩

/-- C7 counterexample: `src/index.js` seeds its cursor with
`coords.x = bounds.east` (and `coords.y = bounds.south`), not `bounds.west` /
`bounds.north`: for the bbox array `[0, 0, 0, 90]` at zoom 2 the seed's `x` is
`lngToTile 90 2 = 3` while `bounds.west = lngToTile 0 2 = 2`. -/
theorem index_seed_not_west :
    (seedCoordsIndex ⟨0, 0, 0, 90⟩ ⟨2, 2⟩).x ≠ (bboxToBoundsIndex ⟨0, 0, 0, 90⟩ 2).west := by
  have h1 : (seedCoordsIndex ⟨0, 0, 0, 90⟩ ⟨2, 2⟩).x = lngToTile 90 2 := rfl
  have h2 : (bboxToBoundsIndex ⟨0, 0, 0, 90⟩ 2).west = lngToTile 0 2 := rfl
  have h3 : lngToTile 90 2 = 3 := by rw [lngToTile]; norm_num
  have h4 : lngToTile 0 2 = 2 := by rw [lngToTile]; norm_num
  rw [h1, h2, h3, h4]
  decide

/-- C7 amended: in `part_000`/`part_001` the first address handed out — the
head of the issued-job sequence for any positive worker count — is
`(zoom.min, bounds.west, bounds.north)` with bounds from their `bboxToBounds`
at `zoom.min`; in `src/index.js` the seed is instead
`(zoom.min, bounds.east, bounds.south)` of its own `bboxToBounds`. -/
theorem first_address_amended :
    (∀ (bbox : BBoxArr) (zr : ZoomRange) (W n : ℕ),
      (issuedJobs zr.min zr.max (fun z => bboxToBounds bbox z) (W + 1) n).head?
        = some ⟨zr.min, (bboxToBounds bbox zr.min).west, (bboxToBounds bbox zr.min).north⟩) ∧
    ∀ (bbox : BBoxArr) (zr : ZoomRange),
      seedCoordsIndex bbox zr
        = ⟨zr.min, (bboxToBoundsIndex bbox zr.min).east, (bboxToBoundsIndex bbox zr.min).south⟩ := by
  constructor
  · intro bbox zr W n
    rw [issuedJobs, List.replicate_succ, List.cons_append, List.head?_cons]
    rfl
  · intro bbox zr
    rfl

/-- At the equator the Mercator row formula gives the middle row `2^(z-1)`,
here at zoom 1: row 1. -/
lemma latToTile_zero_one : latToTile 0 1 = 1 := by
  have h0 : ((0 : ℚ) : ℝ) * Real.pi / 180 = 0 := by push_cast; ring
  rw [latToTile, h0, Real.tan_zero, Real.cos_zero]
  norm_num [Real.log_one]

/-- At latitude 45° the row index at zoom 1 is 0: the Mercator ordinate is
`log (tan 45° + sec 45°) = log (1 + √2) ∈ (0, π]`. -/
lemma latToTile_fortyfive_one : latToTile 45 1 = 0 := by
  have hθ : ((45 : ℚ) : ℝ) * Real.pi / 180 = Real.pi / 4 := by push_cast; ring
  rw [latToTile, hθ, Real.tan_pi_div_four, Real.cos_pi_div_four]
  have hs2 : (0 : ℝ) < Real.sqrt 2 := Real.sqrt_pos.mpr (by norm_num)
  have hss : Real.sqrt 2 * Real.sqrt 2 = 2 := Real.mul_self_sqrt (by norm_num)
  have h1 : 1 / (Real.sqrt 2 / 2) = Real.sqrt 2 := by
    rw [one_div_div, div_eq_iff (ne_of_gt hs2)]
    linarith [hss]
  rw [h1]
  have hL0 : 0 < Real.log (1 + Real.sqrt 2) := Real.log_pos (by linarith)
  have hs2' : Real.sqrt 2 ≤ 2 := by nlinarith [hss, hs2.le]
  have hLpi : Real.log (1 + Real.sqrt 2) ≤ Real.pi := by
    have hlog := Real.log_le_sub_one_of_pos (show (0 : ℝ) < 1 + Real.sqrt 2 by linarith)
    have hpi3 := Real.pi_gt_three
    linarith
  have hπ : (0 : ℝ) < Real.pi := Real.pi_pos
  have hfrac : (1 - Real.log (1 + Real.sqrt 2) / Real.pi) / 2 * 2 ^ 1
      = 1 - Real.log (1 + Real.sqrt 2) / Real.pi := by ring
  rw [hfrac, Int.floor_eq_zero_iff, Set.mem_Ico]
  constructor
  · have hle : Real.log (1 + Real.sqrt 2) / Real.pi ≤ 1 := (div_le_one hπ).mpr hLpi
    linarith
  · have hpos : 0 < Real.log (1 + Real.sqrt 2) / Real.pi := div_pos hL0 hπ
    linarith

/-- C9 counterexample: the two `bboxToBounds` versions disagree on the bbox
array `[0, 0, 45, 0]` at zoom 1 — `index.js` reports `north = latToTile 0 1 = 1`
whereas `part_000` reports `north = latToTile 45 1 = 0`. -/
theorem bbox_versions_differ :
    bboxToBoundsIndex ⟨0, 0, 45, 0⟩ 1 ≠ bboxToBounds ⟨0, 0, 45, 0⟩ 1 := by
  intro h
  have hn : (bboxToBoundsIndex ⟨0, 0, 45, 0⟩ 1).north
      = (bboxToBounds ⟨0, 0, 45, 0⟩ 1).north := by rw [h]
  have h1 : (bboxToBoundsIndex ⟨0, 0, 45, 0⟩ 1).north = latToTile 0 1 := rfl
  have h2 : (bboxToBounds ⟨0, 0, 45, 0⟩ 1).north = latToTile 45 1 := rfl
  rw [h1, h2, latToTile_zero_one, latToTile_fortyfive_one] at hn
  exact absurd hn (by decide)

/-- C9 amended: the two versions agree on `west` and `east` but swap the row
labels: `index.js`'s `north` is `part_000`'s `south` and vice versa (so the
records coincide only when `latToTile bbox[0] = latToTile bbox[2]`). -/
theorem bbox_versions_swap (bbox : BBoxArr) (zoom : ℕ) :
    (bboxToBoundsIndex bbox zoom).west = (bboxToBounds bbox zoom).west ∧
    (bboxToBoundsIndex bbox zoom).east = (bboxToBounds bbox zoom).east ∧
    (bboxToBoundsIndex bbox zoom).north = (bboxToBounds bbox zoom).south ∧
    (bboxToBoundsIndex bbox zoom).south = (bboxToBounds bbox zoom).north :=
  ⟨rfl, rfl, rfl, rfl⟩

/-- C4: if the resolved destination `{outputRoot}/{z}/{x}/{y}.{format}` already
exists (so, filesystem coherence, its parent directories exist and the two
`createDir` calls succeed without touching the disk), the worker reports
success — the callback is invoked with `null` — and performs zero fetches. -/
theorem resume_fast_path (templateUrl output fmt : String) (c : Coords)
    (mkdirOk fetchOk fs : String → Bool)
    (hz : fs (output ++ "/" ++ toString c.z) = true)
    (hx : fs (output ++ "/" ++ toString c.z ++ "/" ++ toString c.x) = true)
    (him : fs (output ++ "/" ++ toString c.z ++ "/" ++ toString c.x
      ++ "/" ++ toString c.y ++ "." ++ fmt) = true) :
    (getTile templateUrl output c fmt mkdirOk fetchOk fs).report = none ∧
    (getTile templateUrl output c fmt mkdirOk fetchOk fs).fetches = 0 := by
  have hg : getTile templateUrl output c fmt mkdirOk fetchOk fs
      = ⟨none, 0, false, fs⟩ := by
    rw [getTile]
    simp only [createDir, hz, if_true, hx, him]
    rfl
  rw [hg]
  exact ⟨rfl, rfl⟩

/-- C4 witness: tile `(1,2,3)` with `o/1`, `o/1/2` and `o/1/2/3.png` present. -/
theorem resume_fast_path_witness :
    ((fun p => p == "o/1" || p == "o/1/2" || p == "o/1/2/3.png")
        ("o" ++ "/" ++ toString (⟨1, 2, 3⟩ : Coords).z) = true ∧
      (fun p => p == "o/1" || p == "o/1/2" || p == "o/1/2/3.png")
        ("o" ++ "/" ++ toString (⟨1, 2, 3⟩ : Coords).z
          ++ "/" ++ toString (⟨1, 2, 3⟩ : Coords).x) = true ∧
      (fun p => p == "o/1" || p == "o/1/2" || p == "o/1/2/3.png")
        ("o" ++ "/" ++ toString (⟨1, 2, 3⟩ : Coords).z
          ++ "/" ++ toString (⟨1, 2, 3⟩ : Coords).x
          ++ "/" ++ toString (⟨1, 2, 3⟩ : Coords).y ++ "." ++ "png") = true) ∧
    ((getTile "https://t/{z}/{x}/{y}.png" "o" ⟨1, 2, 3⟩ "png" (fun _ => false)
        (fun _ => false) (fun p => p == "o/1" || p == "o/1/2" || p == "o/1/2/3.png")).report
      = none ∧
    (getTile "https://t/{z}/{x}/{y}.png" "o" ⟨1, 2, 3⟩ "png" (fun _ => false)
        (fun _ => false) (fun p => p == "o/1" || p == "o/1/2" || p == "o/1/2/3.png")).fetches
      = 0) :=
  ⟨⟨by decide, by decide, by decide⟩,
    resume_fast_path "https://t/{z}/{x}/{y}.png" "o" "png" ⟨1, 2, 3⟩
      (fun _ => false) (fun _ => false)
      (fun p => p == "o/1" || p == "o/1/2" || p == "o/1/2/3.png")
      (by decide) (by decide) (by decide)⟩

/-- C6: a failed fetch never halts the run.  First conjunct: in the worker, a
job whose directories exist, whose image is absent and whose fetch fails still
invokes the callback with no error (so a completion report is sent), performs
exactly one fetch, and writes nothing — the tile is left absent.  Remaining
conjuncts: the master advances the iterator once per received report without
inspecting it, so — for well-ordered bounds, `zmin ≤ zmax` and at least as many
reports as addresses — every address is still issued in order, the final count
is the full canonical length, and the iterator ends exhausted (the run
terminates normally). -/
theorem fetch_failure_nonfatal (templateUrl output fmt : String) (c : Coords)
    (mkdirOk fetchOk fs : String → Bool)
    (zmin zmax n : ℕ) (bounds : ℕ → Bounds)
    (hz : fs (output ++ "/" ++ toString c.z) = true)
    (hx : fs (output ++ "/" ++ toString c.z ++ "/" ++ toString c.x) = true)
    (him : fs (output ++ "/" ++ toString c.z ++ "/" ++ toString c.x
      ++ "/" ++ toString c.y ++ "." ++ fmt) = false)
    (hfetch : fetchOk (templateToUrl templateUrl c) = false)
    (H : ∀ z, z ≤ zmax →
      (bounds z).west ≤ (bounds z).east ∧ (bounds z).north ≤ (bounds z).south)
    (hzz : zmin ≤ zmax) (hn : (zoomSeq zmax bounds zmin).length ≤ n) :
    getTile templateUrl output c fmt mkdirOk fetchOk fs = ⟨none, 1, false, fs⟩ ∧
    seedCoords zmin bounds :: (run zmax bounds n (seedState zmin bounds)).1
      = zoomSeq zmax bounds zmin ∧
    (run zmax bounds n (seedState zmin bounds)).2.count
      = (zoomSeq zmax bounds zmin).length ∧
    (getNextJob zmax bounds (run zmax bounds n (seedState zmin bounds)).2).1 = none := by
  obtain ⟨f1, f2, f3⟩ := seeded_run_facts zmin zmax bounds H hzz n
  refine ⟨?_, ?_, ?_, ?_⟩
  · rw [getTile]
    simp only [createDir, hz, if_true, hx, him]
    rw [hfetch]
    rfl
  · rw [f1, List.take_of_length_le (by omega)]
  · rw [f2, min_eq_right hn]
  · have hcred : credits zmax bounds (run zmax bounds n (seedState zmin bounds)).2 = 0 := by
      rw [f3, min_eq_right hn]
      omega
    have hzgt : zmax < (run zmax bounds n (seedState zmin bounds)).2.z := by
      rw [credits] at hcred
      by_contra hle
      rw [if_pos (by omega)] at hcred
      omega
    rw [getNextJob_of_zgt hzgt]

/-- C6 witness: one missing tile with a failing fetch over the two-tile
configuration. -/
theorem fetch_failure_nonfatal_witness :
    (((fun p => p == "o/0" || p == "o/0/0")
        ("o" ++ "/" ++ toString (⟨0, 0, 0⟩ : Coords).z) = true ∧
      (fun p => p == "o/0" || p == "o/0/0")
        ("o" ++ "/" ++ toString (⟨0, 0, 0⟩ : Coords).z
          ++ "/" ++ toString (⟨0, 0, 0⟩ : Coords).x) = true ∧
      (fun p => p == "o/0" || p == "o/0/0")
        ("o" ++ "/" ++ toString (⟨0, 0, 0⟩ : Coords).z
          ++ "/" ++ toString (⟨0, 0, 0⟩ : Coords).x
          ++ "/" ++ toString (⟨0, 0, 0⟩ : Coords).y ++ "." ++ "png") = false) ∧
      (0 : ℕ) ≤ 0 ∧ (zoomSeq 0 (fun _ => ⟨0, 0, 1, 0⟩) 0).length ≤ 2) ∧
    (getTile "t" "o" ⟨0, 0, 0⟩ "png" (fun _ => false) (fun _ => false)
        (fun p => p == "o/0" || p == "o/0/0")
        = ⟨none, 1, false, fun p => p == "o/0" || p == "o/0/0"⟩ ∧
    seedCoords 0 (fun _ => ⟨0, 0, 1, 0⟩)
        :: (run 0 (fun _ => ⟨0, 0, 1, 0⟩) 2 (seedState 0 (fun _ => ⟨0, 0, 1, 0⟩))).1
      = zoomSeq 0 (fun _ => ⟨0, 0, 1, 0⟩) 0 ∧
    (run 0 (fun _ => ⟨0, 0, 1, 0⟩) 2 (seedState 0 (fun _ => ⟨0, 0, 1, 0⟩))).2.count
      = (zoomSeq 0 (fun _ => ⟨0, 0, 1, 0⟩) 0).length ∧
    (getNextJob 0 (fun _ => ⟨0, 0, 1, 0⟩)
      (run 0 (fun _ => ⟨0, 0, 1, 0⟩) 2 (seedState 0 (fun _ => ⟨0, 0, 1, 0⟩))).2).1 = none) :=
  ⟨⟨⟨by decide, by decide, by decide⟩, by decide, by decide⟩,
    fetch_failure_nonfatal "t" "o" "png" ⟨0, 0, 0⟩ (fun _ => false) (fun _ => false)
      (fun p => p == "o/0" || p == "o/0/0") 0 0 2 (fun _ => ⟨0, 0, 1, 0⟩)
      (by decide) (by decide) (by decide) (by decide) (by decide) (by decide) (by decide)⟩

/-- A `getTile` error is always a `pathError` for the job's `{z}` or `{z}/{x}`
directory. -/
lemma getTile_report_path {templateUrl output fmt : String} {c : Coords}
    {mkdirOk fetchOk fs : String → Bool} {e : String}
    (h : (getTile templateUrl output c fmt mkdirOk fetchOk fs).report = some e) :
    e = pathError (output ++ "/" ++ toString c.z) ∨
    e = pathError (output ++ "/" ++ toString c.z ++ "/" ++ toString c.x) := by
  simp only [getTile] at h
  split_ifs at h
  · exact Or.inl (Option.some.inj h).symm
  · exact Or.inr (Option.some.inj h).symm

/-- Once the sequential `part_000` run has aborted with an error, giving the
recursion more fuel changes nothing: the run has genuinely stopped. -/
lemma run000_err_frozen (zmax : ℕ) (bounds : ℕ → Bounds)
    (templateUrl output : String) (mkdirOk fetchOk : String → Bool) :
    ∀ (fuel k : ℕ) (s : IterState) (fs : String → Bool) (e : String),
      (run000 zmax bounds templateUrl output mkdirOk fetchOk fuel s fs).err = some e →
      run000 zmax bounds templateUrl output mkdirOk fetchOk (fuel + k) s fs
        = run000 zmax bounds templateUrl output mkdirOk fetchOk fuel s fs := by
  intro fuel
  induction fuel with
  | zero =>
    intro k s fs e h
    simp [run000] at h
  | succ fuel ih =>
    intro k s fs e h
    have hadd : fuel + 1 + k = (fuel + k) + 1 := by omega
    rw [hadd]
    cases hrep : (getTile templateUrl output ⟨s.z, s.x, s.y⟩ "png" mkdirOk fetchOk fs).report with
    | some e2 => simp only [run000, hrep]
    | none =>
      simp only [run000, hrep] at h ⊢
      split_ifs at h ⊢ with h1 h2 h3
      · simp only at h ⊢
        rw [ih k _ _ e h]
      · simp only at h ⊢
        rw [ih k _ _ e h]
      · simp only at h ⊢
        rw [ih k _ _ e h]

/-- When the sequential `part_000` run aborts, the error it surfaces is the
path error of one attempted job's `{z}` or `{z}/{x}` directory. -/
lemma run000_err_is_path (zmax : ℕ) (bounds : ℕ → Bounds)
    (templateUrl output : String) (mkdirOk fetchOk : String → Bool) :
    ∀ (fuel : ℕ) (s : IterState) (fs : String → Bool) (e : String),
      (run000 zmax bounds templateUrl output mkdirOk fetchOk fuel s fs).err = some e →
      ∃ c ∈ (run000 zmax bounds templateUrl output mkdirOk fetchOk fuel s fs).jobs,
        e = pathError (output ++ "/" ++ toString c.z) ∨
        e = pathError (output ++ "/" ++ toString c.z ++ "/" ++ toString c.x) := by
  intro fuel
  induction fuel with
  | zero =>
    intro s fs e h
    simp [run000] at h
  | succ fuel ih =>
    intro s fs e h
    cases hrep : (getTile templateUrl output ⟨s.z, s.x, s.y⟩ "png" mkdirOk fetchOk fs).report with
    | some e2 =>
      simp only [run000, hrep] at h ⊢
      have he : e2 = e := Option.some.inj h
      refine ⟨⟨s.z, s.x, s.y⟩, by simp, ?_⟩
      rw [← he]
      exact getTile_report_path hrep
    | none =>
      simp only [run000, hrep] at h ⊢
      split_ifs at h ⊢ with h1 h2 h3
      · simp only at h ⊢
        obtain ⟨c, hmem, hshape⟩ := ih _ _ e h
        exact ⟨c, List.mem_cons_of_mem _ hmem, hshape⟩
      · simp only at h ⊢
        obtain ⟨c, hmem, hshape⟩ := ih _ _ e h
        exact ⟨c, List.mem_cons_of_mem _ hmem, hshape⟩
      · simp only at h ⊢
        obtain ⟨c, hmem, hshape⟩ := ih _ _ e h
        exact ⟨c, List.mem_cons_of_mem _ hmem, hshape⟩

/-- C5 counterexample: in the cluster version (`part_001`), a `{z}`-directory
creation failure only produces a per-job error report — the master still calls
`getNextJob` on that report and issues the next job.  Concretely: with every
`mkdirSync` failing, `getTile` for the first job reports the path error for
`o/0`, yet the run over a two-tile box with one worker issues a second job. -/
theorem dir_failure_does_not_halt_001 :
    (getTile "t" "o" ⟨0, 0, 0⟩ "png" (fun _ => false) (fun _ => false)
      (fun _ => false)).report = some (pathError "o/0") ∧
    issuedJobs 0 0 (fun _ => ⟨0, 0, 1, 0⟩) 1 1 = [⟨0, 0, 0⟩, ⟨0, 1, 0⟩] :=
  ⟨by decide, by decide⟩

/-- C5 amended: the output-root part of the claim holds in `part_001` — a root
creation failure aborts the run with the root's path error and zero issued
jobs — and the `{z}`/`{z}/{x}` part holds in the sequential `part_000` version:
an aborted run surfaces the path error of an attempted job's directory, and no
further job is issued after the failure (more fuel leaves the aborted run
unchanged).  In `part_001` itself, per-job directory failures do not stop job
issuance (see the counterexample). -/
theorem dir_failure_abort_amended
    (zmin zmax W n : ℕ) (bounds : ℕ → Bounds) (output : String)
    (mkdirOk fs0 : String → Bool)
    (templateUrl out2 : String) (mk2 fo2 : String → Bool)
    (fuel k : ℕ) (s : IterState) (fs : String → Bool) (e : String)
    (h1 : fs0 output = false) (h2 : mkdirOk output = false) :
    getTiles001 zmin zmax bounds output mkdirOk fs0 W n
      = ⟨some (pathError output), [], 0⟩ ∧
    ((run000 zmax bounds templateUrl out2 mk2 fo2 fuel s fs).err = some e →
      run000 zmax bounds templateUrl out2 mk2 fo2 (fuel + k) s fs
        = run000 zmax bounds templateUrl out2 mk2 fo2 fuel s fs ∧
      ∃ c ∈ (run000 zmax bounds templateUrl out2 mk2 fo2 fuel s fs).jobs,
        e = pathError (out2 ++ "/" ++ toString c.z) ∨
        e = pathError (out2 ++ "/" ++ toString c.z ++ "/" ++ toString c.x)) := by
  constructor
  · simp [getTiles001, createDir, h1, h2]
  · intro he
    exact ⟨run000_err_frozen zmax bounds templateUrl out2 mk2 fo2 fuel k s fs e he,
      run000_err_is_path zmax bounds templateUrl out2 mk2 fo2 fuel s fs e he⟩

/-- C5 amended witness: everything failing on an empty filesystem. -/
theorem dir_failure_abort_amended_witness :
    ((fun _ : String => false) "o" = false ∧ (fun _ : String => false) "o" = false) ∧
    (getTiles001 0 0 (fun _ => ⟨0, 0, 1, 0⟩) "o" (fun _ => false) (fun _ => false) 1 1
      = ⟨some (pathError "o"), [], 0⟩ ∧
    ((run000 0 (fun _ => ⟨0, 0, 1, 0⟩) "t" "o" (fun _ => false) (fun _ => false)
        0 ⟨0, 0, 0, 0⟩ (fun _ => false)).err = some "x" →
      run000 0 (fun _ => ⟨0, 0, 1, 0⟩) "t" "o" (fun _ => false) (fun _ => false)
          (0 + 0) ⟨0, 0, 0, 0⟩ (fun _ => false)
        = run000 0 (fun _ => ⟨0, 0, 1, 0⟩) "t" "o" (fun _ => false) (fun _ => false)
            0 ⟨0, 0, 0, 0⟩ (fun _ => false) ∧
      ∃ c ∈ (run000 0 (fun _ => ⟨0, 0, 1, 0⟩) "t" "o" (fun _ => false) (fun _ => false)
          0 ⟨0, 0, 0, 0⟩ (fun _ => false)).jobs,
        "x" = pathError ("o" ++ "/" ++ toString c.z) ∨
        "x" = pathError ("o" ++ "/" ++ toString c.z ++ "/" ++ toString c.x))) :=
  ⟨⟨by decide, by decide⟩,
    dir_failure_abort_amended 0 0 1 1 (fun _ => ⟨0, 0, 1, 0⟩) "o"
      (fun _ => false) (fun _ => false) "t" "o" (fun _ => false) (fun _ => false)
      0 0 ⟨0, 0, 0, 0⟩ (fun _ => false) "x" (by decide) (by decide)⟩

/-- The first-occurrence semantics of the `url.replace(/{…}/, v)` calls: if a
placeholder pattern starting with a brace first occurs after a brace-free
prefix `a`, exactly that occurrence is replaced and the whole suffix `b` —
later occurrences included — is kept verbatim. -/
lemma replaceFirstAux_spec :
    ∀ (a b pat rep : List Char), pat.head? = some '{' →
      (∀ ch ∈ a, ch ≠ '{') →
      replaceFirstAux pat rep (a ++ pat ++ b) = a ++ rep ++ b := by
  intro a
  induction a with
  | nil =>
    intro b pat rep hpat _
    cases pat with
    | nil => simp at hpat
    | cons p0 pt =>
      have hp0 : p0 = '{' := by
        simp only [List.head?_cons, Option.some.injEq] at hpat
        exact hpat
      simp only [List.nil_append]
      have hpre : (p0 :: pt).isPrefixOf ((p0 :: pt) ++ b) = true :=
        List.isPrefixOf_iff_prefix.mpr (List.prefix_append _ _)
      show replaceFirstAux (p0 :: pt) rep (p0 :: (pt ++ b)) = rep ++ b
      rw [replaceFirstAux]
      rw [show p0 :: (pt ++ b) = (p0 :: pt) ++ b from rfl, if_pos hpre, List.drop_left]
  | cons c a' ih =>
    intro b pat rep hpat ha
    have hc : c ≠ '{' := ha c (by simp)
    cases pat with
    | nil => simp at hpat
    | cons p0 pt =>
      have hp0 : p0 = '{' := by
        simp only [List.head?_cons, Option.some.injEq] at hpat
        exact hpat
      have hnpre : (p0 :: pt).isPrefixOf (c :: (a' ++ (p0 :: pt) ++ b)) = false := by
        simp only [List.isPrefixOf, Bool.and_eq_false_iff]
        left
        simp [hp0, Ne.symm hc]
      show replaceFirstAux (p0 :: pt) rep (c :: (a' ++ (p0 :: pt) ++ b))
        = c :: (a' ++ rep ++ b)
      rw [replaceFirstAux, if_neg (by rw [hnpre]; exact Bool.false_ne_true)]
      rw [ih b (p0 :: pt) rep hpat fun ch hch => ha ch (List.mem_cons_of_mem _ hch)]

/-- C10: `templateToUrl` substitutes only the first occurrence of each
placeholder.  General form: whenever a placeholder pattern (starting with the
brace character, as `{x}`, `{y}` and `{z}` do) first occurs after a brace-free
prefix, the single `replace` call used by `templateToUrl` rewrites only that
occurrence and leaves the entire suffix — any further occurrences included —
verbatim.  Concrete form: resolving a template with every placeholder doubled
substitutes each one's first occurrence only. -/
theorem template_first_occurrence_only (a b pat rep : List Char)
    (hpat : pat.head? = some '{') (ha : ∀ ch ∈ a, ch ≠ '{') :
    replaceFirstAux pat rep (a ++ pat ++ b) = a ++ rep ++ b ∧
    templateToUrl "https://t/{z}/{x}/{y}/{x}/{y}/{z}" ⟨1, 2, 3⟩
      = "https://t/1/2/3/{x}/{y}/{z}" :=
  ⟨replaceFirstAux_spec a b pat rep hpat ha, by decide⟩

/-- C10 witness: replace `{x}` by `2` at the head of `{x}{x}`. -/
theorem template_first_occurrence_only_witness :
    (("{x}".data.head? = some '{') ∧ ∀ ch ∈ ([] : List Char), ch ≠ '{') ∧
    (replaceFirstAux "{x}".data "2".data ([] ++ "{x}".data ++ "{x}".data)
      = [] ++ "2".data ++ "{x}".data ∧
    templateToUrl "https://t/{z}/{x}/{y}/{x}/{y}/{z}" ⟨1, 2, 3⟩
      = "https://t/1/2/3/{x}/{y}/{z}") :=
  ⟨⟨by decide, by decide⟩,
    template_first_occurrence_only [] "{x}".data "{x}".data "2".data
      (by decide) (by decide)⟩

end Matilda
